import Mathlib

/-!
Verification development for the Rutube download-queue GUI (src/Parser.py).

The embedding models the mutable state of the MainWindow coordinator
(queue widget item data, queued url list, downloaded file list, console
text, global progress bar, running counter) and the operations that the
claims exercise: link adding, selected-item removal, batch start and
submission, the stop action, the reset dialog, the per-item signal
handlers, and the DownloadWorker run body.  The real file system is
modelled as a predicate on paths, and the Qt thread pool as an explicit
pending/active/done state with a step relation.  Exact float arithmetic
of the progress hook is modelled with natural-number floor division;
no claim depends on the rounding mode.
-/

namespace RutubeSaver

/-- Data stored in the Qt.UserRole slot of one queue list item
(Parser.py lines 388-393).  The displayed text of the widget item is
presentation only and is not modelled. -/
structure QueueItemData where
  url : String
  status : String
  progress : Int
  filepath : String
deriving DecidableEq

/-- The coordinator-owned state of MainWindow that the claims touch:
queue widget data, the parallel queued_urls list, session bookkeeping
and the global progress bar (value and maximum). -/
structure AppState where
  download_dir : String
  queue_list : List QueueItemData
  queued_urls : List String
  downloaded_files : List String
  console : List String
  global_progress_value : Nat
  global_progress_max : Nat
  running_count : Nat
deriving DecidableEq

/-- os.path.basename for posix paths: the component after the last
slash (Parser.py line 589). -/
def basename (p : String) : String :=
  ((p.splitOn "/").getLast?).getD p

/-- os.path.join for the reconciliation probe (Parser.py line 590):
an absolute second component wins, otherwise the two parts are glued
with a single slash. -/
def joinPath (d b : String) : String :=
  if b.startsWith "/" then b
  else if d = "" then b
  else if d.endsWith "/" then d ++ b
  else d ++ "/" ++ b

/-- The body of the update loop of _on_item_progress (Parser.py lines
559-566): the first item whose stored url matches gets the incoming
percent written verbatim; the loop then breaks. -/
def updProgressList : List QueueItemData → String → Int → List QueueItemData
  | [], _, _ => []
  | it :: rest, url, p =>
    if it.url = url then { it with progress := p } :: rest
    else it :: updProgressList rest url p

/-- Slot _on_item_progress (Parser.py lines 557-566). -/
def on_item_progress (st : AppState) (url : String) (p : Int) : AppState :=
  { st with queue_list := updProgressList st.queue_list url p }

/-- The body of the update loop of _set_item_status (Parser.py lines
569-576): the first item whose stored url matches gets the new status;
the loop then breaks. -/
def updStatusList : List QueueItemData → String → String → List QueueItemData
  | [], _, _ => []
  | it :: rest, url, s =>
    if it.url = url then { it with status := s } :: rest
    else it :: updStatusList rest url s

/-- Helper _set_item_status (Parser.py lines 568-576). -/
def set_item_status (st : AppState) (url s : String) : AppState :=
  { st with queue_list := updStatusList st.queue_list url s }

/-- Slot _on_item_status (Parser.py lines 578-579): it only forwards to
_set_item_status; in particular it never touches the global progress
bar. -/
def on_item_status (st : AppState) (url s : String) : AppState :=
  set_item_status st url s

/-- Slot _on_item_finished (Parser.py lines 581-597).  fs models
os.path.isfile on the current file system.  A non-empty reported path
is recorded if it exists, otherwise the output directory joined with
its basename is probed; in both failure cases nothing is recorded and
nothing is written to the console.  The item is then marked completed
and the global progress value advances by one, clamped to the maximum. -/
def on_item_finished (fs : String → Bool) (st : AppState) (url fp : String) : AppState :=
  let st1 :=
    if fp ≠ "" then
      if fs fp then { st with downloaded_files := st.downloaded_files ++ [fp] }
      else
        let cand := joinPath st.download_dir (basename fp)
        if fs cand then { st with downloaded_files := st.downloaded_files ++ [cand] }
        else st
    else st
  let st2 := set_item_status st1 url "completed"
  { st2 with
      global_progress_value :=
        min st2.global_progress_max (st2.global_progress_value + 1) }

/-- First-match lookup of an item status by url, mirroring how both
update loops locate an item. -/
def status_of : List QueueItemData → String → Option String
  | [], _ => none
  | it :: rest, url => if it.url = url then some it.status else status_of rest url

/-- First-match lookup of an item progress by url. -/
def progress_of : List QueueItemData → String → Option Int
  | [], _ => none
  | it :: rest, url => if it.url = url then some it.progress else progress_of rest url

/-- Number of items currently showing a given status. -/
def countWithStatus (items : List QueueItemData) (s : String) : Nat :=
  (items.filter (fun it => it.status = s)).length

/-- Number of items carrying a given url. -/
def countItems (items : List QueueItemData) (url : String) : Nat :=
  (items.filter (fun it => it.url = url)).length

/-- One iteration of the loop of _add_links (Parser.py lines 384-398):
links already present in queued_urls are skipped without any mutation,
otherwise a fresh queued item with progress 0 is appended to the queue
widget, the url is appended to queued_urls, the added counter grows and
a debug line is emitted. -/
def addLinkStep (acc : AppState × Nat) (link : String) : AppState × Nat :=
  if link ∈ acc.1.queued_urls then acc
  else
    ({ acc.1 with
        queue_list := acc.1.queue_list ++ [⟨link, "queued", 0, ""⟩],
        queued_urls := acc.1.queued_urls ++ [link],
        console := acc.1.console ++ ["[DEBUG] Добавлена полная ссылка: " ++ link] },
     acc.2 + 1)

/-- Method _add_links (Parser.py lines 382-399): fold the loop over the
incoming links, then emit the summary console line. -/
def add_links (st : AppState) (links : List String) : AppState :=
  let r := links.foldl addLinkStep (st, 0)
  { r.1 with console := r.1.console ++ ["Добавлено ссылок: " ++ toString r.2] }

/-- Python list.remove for the present case (Parser.py line 406):
drops the first occurrence.  When the element is absent the real call
raises ValueError; for selected queue items the url is always present,
and the absent case is modelled as a no-op. -/
def removeFirst : List String → String → List String
  | [], _ => []
  | x :: xs, u => if x = u then xs else x :: removeFirst xs u

/-- QListWidget.takeItem keyed by the url stored in the item data
(Parser.py line 407): removes the first item carrying that url. -/
def removeItemByUrl : List QueueItemData → String → List QueueItemData
  | [], _ => []
  | it :: rest, u => if it.url = u then rest else it :: removeItemByUrl rest u

/-- Method remove_selected (Parser.py lines 402-408), with the selected
items identified by their stored urls. -/
def remove_selected (st : AppState) (sel : List String) : AppState :=
  sel.foldl
    (fun s u =>
      { s with
          queued_urls := removeFirst s.queued_urls u,
          queue_list := removeItemByUrl s.queue_list u,
          console := s.console ++ ["Удалено из очереди: " ++ u] })
    st

/-- The answer chosen in the reset dialog (Parser.py lines 472-477). -/
inductive DialogResult where
  | yes
  | no
  | cancel
deriving DecidableEq

/-- The deletion loop of reset_all (Parser.py lines 480-487): walk the
recorded files in order, deleting each one that currently exists; the
file-system predicate is threaded so that a path deleted once no longer
exists for a later duplicate entry.  Returns the final file system and
the list of paths actually removed. -/
def deleteFiles (fs : String → Bool) : List String → (String → Bool) × List String
  | [] => (fs, [])
  | f :: rest =>
    if fs f then
      let fs1 : String → Bool := fun g => if g = f then false else fs g
      let r := deleteFiles fs1 rest
      (r.1, f :: r.2)
    else deleteFiles fs rest

/-- The unconditional clearing tail of reset_all (Parser.py lines
490-495): queue widget, queued_urls, console, downloaded_files and the
global progress value are cleared; the progress maximum is untouched. -/
def clearState (st : AppState) : AppState :=
  { st with
      queue_list := [],
      queued_urls := [],
      console := [],
      downloaded_files := [],
      global_progress_value := 0 }

/-- Method reset_all (Parser.py lines 466-495).  Cancel returns with no
effect at all; Yes with the delete checkbox checked runs the deletion
loop first; every non-cancel answer then clears the session state.
The per-deletion console lines are wiped by the subsequent
console.clear, so the cleared console models the net effect.  Returns
the new state, the new file system and the list of deleted paths. -/
def reset_all (st : AppState) (res : DialogResult) (deleteChecked : Bool)
    (fs : String → Bool) : AppState × (String → Bool) × List String :=
  match res with
  | .cancel => (st, fs, [])
  | .yes =>
    if deleteChecked then
      let r := deleteFiles fs st.downloaded_files
      (clearState st, r.1, r.2)
    else (clearState st, fs, [])
  | .no => (clearState st, fs, [])

/-- Method _submit_all (Parser.py lines 432-451), store side: emit the
launch console line, then for every item of the queue widget create a
worker, bump running_count and immediately set that item status to
running.  The thread-pool side is modelled separately by Pool below. -/
def submit_all (st : AppState) (maxWorkers : Nat) : AppState :=
  let st1 :=
    { st with
        console := st.console ++
          ["Запуск скачивания " ++ toString st.queued_urls.length ++
            " файлов (" ++ toString maxWorkers ++ " потоков)"] }
  st.queue_list.foldl
    (fun s it =>
      set_item_status { s with running_count := s.running_count + 1 } it.url "running")
    st1

/-- Outcome of pressing Start (Parser.py lines 416-430): either a
warning message box with no launched work, or a launched batch. -/
inductive StartOutcome where
  | rejected (warning : String)
  | launched (workers : List String)
deriving DecidableEq

/-- Method start_downloads (Parser.py lines 416-430): an empty
queued_urls list or a missing yt-dlp dependency is rejected with a
warning box before anything is mutated; otherwise the progress bar is
reset, running_count zeroed and _submit_all runs. -/
def start_downloads (st : AppState) (ytDlpAvailable : Bool) (maxWorkers : Nat) :
    AppState × StartOutcome :=
  if st.queued_urls.isEmpty then (st, .rejected "Очередь пуста")
  else if ytDlpAvailable = false then (st, .rejected "yt-dlp не установлен")
  else
    let st1 :=
      { st with
          global_progress_value := 0,
          global_progress_max := st.queued_urls.length,
          running_count := 0 }
    (submit_all st1 maxWorkers, .launched (st.queue_list.map (fun it => it.url)))

/-- Synchronisation invariant between the queued_urls list and the
queue widget: same urls in the same order, without duplicates. -/
def inSync (st : AppState) : Prop :=
  st.queued_urls = st.queue_list.map (fun it => it.url) ∧ st.queued_urls.Nodup

instance (st : AppState) : Decidable (inSync st) := by
  unfold inSync
  infer_instance

/-- One emission on the Signals bus (Parser.py lines 77-83). -/
inductive Sig where
  | console (text : String)
  | progress (url : String) (percent : Int)
  | status (url : String) (statusText : String)
  | finished (url : String) (filepath : String)
deriving DecidableEq

/-- One callback from the fetch library into the progress hook
(Parser.py lines 99-115): a downloading tick with total bytes (0 when
unknown, covering the or-chain over total_bytes and
total_bytes_estimate), downloaded bytes and an optional eta, or a
finished report with an optional final filename. -/
inductive HookEvent where
  | downloading (totalBytes downloadedBytes : Nat) (eta : Option Nat)
  | finished (filename : Option String)
deriving DecidableEq

/-- Percent computed by the hook (Parser.py lines 103-107): zero when
the total is unknown, otherwise the floor of downloaded over total
times one hundred. -/
def percentOf (total downloaded : Nat) : Int :=
  if total = 0 then 0 else Int.ofNat (downloaded * 100 / total)

/-- Python str rendering of an optional number, as interpolated into
the eta console line. -/
def etaText : Option Nat → String
  | none => "None"
  | some n => toString n

/-- Python str rendering of the optional filename in the finished
console line. -/
def fileText : Option String → String
  | none => "None"
  | some s => s

/-- Signals emitted by one hook callback (Parser.py lines 99-115). -/
def hook_sigs (url : String) : HookEvent → List Sig
  | .downloading total downloaded eta =>
    [.progress url (percentOf total downloaded),
     .console ("[" ++ url ++ "] downloading: " ++ toString (percentOf total downloaded) ++
       "% ETA=" ++ etaText eta)]
  | .finished filename =>
    [.progress url 100,
     .console ("[" ++ url ++ "] finished -> " ++ fileText filename),
     .finished url (filename.getD "")]

/-- Signals emitted for a whole sequence of hook callbacks. -/
def hook_trace (url : String) : List HookEvent → List Sig
  | [] => []
  | e :: rest => hook_sigs url e ++ hook_trace url rest

/-- Behaviour of the opaque fetch call ydl.download (Parser.py line
160): it either returns normally after a sequence of hook callbacks, or
raises an exception after a (possibly shorter) sequence of callbacks;
tb models traceback.format_exc of the raised exception. -/
inductive FetchOutcome where
  | ok (events : List HookEvent)
  | raises (msg tb : String) (events : List HookEvent)
deriving DecidableEq

/-- The console line produced by the except clause of
DownloadWorker.run (Parser.py line 166). -/
def errorLine (url msg tb : String) : String :=
  "Error downloading " ++ url ++ ": " ++ msg ++ "\n" ++ tb

/-- Method DownloadWorker.run (Parser.py lines 95-167), as the list of
signals it emits.  Being a total function, it models the guarantee that
the try/except wrapper never lets an exception escape the runnable.
When yt-dlp is unavailable the item short-circuits to the missing
status; a normal return ends with status done; a raised fetch exception
ends with the error console line followed by status error. -/
def worker_run (url : String) (ytDlpAvailable : Bool) (outcome : FetchOutcome) : List Sig :=
  Sig.console ("Starting download: " ++ url) ::
    (if ytDlpAvailable = false then
      [.console "yt-dlp is not available. Skipping.", .status url "missing yt-dlp"]
    else
      match outcome with
      | .ok evs => hook_trace url evs ++ [.status url "done"]
      | .raises msg tb evs =>
        hook_trace url evs ++ [.console (errorLine url msg tb), .status url "error"])

/-- The url carried by a non-console signal. -/
def sigUrl : Sig → Option String
  | .console _ => none
  | .progress u _ => some u
  | .status u _ => some u
  | .finished u _ => some u

/-- Dispatch of one delivered signal to the connected slot (Parser.py
lines 180-184). -/
def process_sig (fs : String → Bool) (st : AppState) : Sig → AppState
  | .console t => { st with console := st.console ++ [t] }
  | .progress u p => on_item_progress st u p
  | .status u s => on_item_status st u s
  | .finished u fp => on_item_finished fs st u fp

/-- The coordinator consuming a queue of delivered signals in order. -/
def apply_sigs (fs : String → Bool) (st : AppState) (sigs : List Sig) : AppState :=
  sigs.foldl (process_sig fs) st

/-- One QThreadPool with its queued runnables (urls), the runnables
currently executing, and the finished ones.  Modelled from the
documented Qt semantics the code relies on (Parser.py lines 433-438,
453-460): start enqueues a runnable, and the pool begins queued
runnables as long as fewer than maxThreads are active. -/
structure Pool where
  maxThreads : Nat
  pending : List String
  active : List String
  done : List String
deriving DecidableEq

/-- A scheduling step of one pool: a queued runnable starts only while
a slot is free, and an active runnable may finish naturally.  There is
no kill step: QThreadPool offers none and the code uses none. -/
inductive PoolStep : Pool → Pool → Prop
  | dispatch (p : Pool) (u : String) (rest : List String) :
      p.pending = u :: rest → p.active.length < p.maxThreads →
      PoolStep p { p with pending := rest, active := p.active ++ [u] }
  | finish (p : Pool) (u : String) :
      u ∈ p.active →
      PoolStep p { p with active := p.active.erase u, done := p.done ++ [u] }

/-- Zero or more pool steps. -/
inductive PoolSteps : Pool → Pool → Prop
  | refl (p : Pool) : PoolSteps p p
  | tail (p q r : Pool) : PoolSteps p q → PoolStep q r → PoolSteps p r

/-- The pool state right after _submit_all (Parser.py lines 438-449):
maxThreadCount set to the worker limit, every item enqueued, nothing
started yet. -/
def startPool (maxWorkers : Nat) (urls : List String) : Pool :=
  { maxThreads := maxWorkers, pending := urls, active := [], done := [] }

/-- All live pools of the process plus the index the attribute
self.threadpool currently points at.  Pools other than the current one
keep existing and keep scheduling their runnables: the initial pool is
QThreadPool.globalInstance, which Qt owns for the application lifetime. -/
structure Sched where
  pools : List Pool
  cur : Nat
deriving DecidableEq

/-- A step of the whole process: any live pool may take a step,
whether or not self.threadpool still points at it. -/
inductive SchedStep : Sched → Sched → Prop
  | pool (s : Sched) (i : Nat) (p q : Pool) :
      s.pools[i]? = some p → PoolStep p q →
      SchedStep s { s with pools := s.pools.set i q }

/-- Zero or more process steps. -/
inductive SchedSteps : Sched → Sched → Prop
  | refl (s : Sched) : SchedSteps s s
  | tail (s t u : Sched) : SchedSteps s t → SchedStep t u → SchedSteps s u

/-- Method stop_downloads (Parser.py lines 453-464) after the user
confirms: a brand-new QThreadPool is created with the current spin-box
value and self.threadpool is rebound to it.  The old pool is not
touched: none of its queued runnables are removed. -/
def stop_downloads (s : Sched) (confirmYes : Bool) (newMax : Nat) : Sched :=
  if confirmYes then
    { pools := s.pools ++ [{ maxThreads := newMax, pending := [], active := [], done := [] }],
      cur := s.pools.length }
  else s

/-- Expected contents of downloadedFiles appended by one finished
event: the reported path when it exists, else the output directory
joined with its basename when that exists, else nothing. -/
def reconcile (fs : String → Bool) (dir fp : String) : List String :=
  if fp ≠ "" ∧ fs fp = true then [fp]
  else if fp ≠ "" ∧ fs (joinPath dir (basename fp)) = true then [joinPath dir (basename fp)]
  else []

theorem progress_of_updProgressList (items : List QueueItemData) (url : String) (p : Int)
    (h : url ∈ items.map (fun it => it.url)) :
    progress_of (updProgressList items url p) url = some p := by
  induction items with
  | nil => simp at h
  | cons it rest ih =>
    by_cases hu : it.url = url
    · simp [updProgressList, hu, progress_of]
    · simp only [List.map_cons, List.mem_cons] at h
      rcases h with h | h
      · exact absurd h.symm hu
      · simp [updProgressList, hu, progress_of, ih h]

/-- Sample state for claim C4: one running item whose last stored
progress is 50. -/
def stC4 : AppState :=
  { download_dir := "downloads",
    queue_list := [⟨"u", "running", 50, ""⟩],
    queued_urls := ["u"],
    downloaded_files := [],
    console := [],
    global_progress_value := 0,
    global_progress_max := 1,
    running_count := 1 }

/-- C4 counterexample: the claim says an incoming percent is clamped
into the interval from the last stored value to 100 before being
stored, so the stored value never regresses.  On the state stC4 whose
item for url u stores 50, delivering a progress event of 30 stores 30,
which is strictly below the previous 50: no clamping happens. -/
theorem progress_regression_cex :
    progress_of stC4.queue_list "u" = some 50 ∧
    progress_of (on_item_progress stC4 "u" 30).queue_list "u" = some 30 ∧
    (30 : Int) < 50 := by decide

/-- C4 (corrected): the coordinator stores each incoming percent for an
existing url verbatim; the stored value is exactly the last received
percent, with no clamping against the previous value or against 100. -/
theorem progress_stored_verbatim (st : AppState) (url : String) (p : Int)
    (h : url ∈ st.queue_list.map (fun it => it.url)) :
    progress_of (on_item_progress st url p).queue_list url = some p := by
  unfold on_item_progress
  exact progress_of_updProgressList st.queue_list url p h

/-- C4 witness: the corrected theorem applied to stC4 with an incoming
percent of 30. -/
theorem progress_stored_verbatim_witness :
    progress_of (on_item_progress stC4 "u" 30).queue_list "u" = some 30 :=
  progress_stored_verbatim stC4 "u" 30 (by decide)

/-- Sample state for claim C6: one running item, aggregate counter at
0 with a batch total of 1. -/
def stC6 : AppState :=
  { download_dir := "downloads",
    queue_list := [⟨"u", "running", 10, ""⟩],
    queued_urls := ["u"],
    downloaded_files := [],
    console := [],
    global_progress_value := 0,
    global_progress_max := 1,
    running_count := 1 }

/-- C6 counterexample: the claim says every terminal state, Error
included, advances the aggregate batch counter by exactly one.  On
stC6, delivering the terminal status error for url u leaves the
counter at its old value 0 instead of advancing it to 1: only the
finished handler ever touches the global progress bar. -/
theorem error_does_not_advance_counter_cex :
    status_of (on_item_status stC6 "u" "error").queue_list "u" = some "error" ∧
    (on_item_status stC6 "u" "error").global_progress_value = stC6.global_progress_value ∧
    ¬ (on_item_status stC6 "u" "error").global_progress_value =
        stC6.global_progress_value + 1 := by decide

/-- C6 (corrected): a statusChanged event never changes the aggregate
progress counter, whatever the status text; only a finished event
advances it, by exactly one unit clamped to the batch maximum.  So the
counter reaches the batch total only when every item reports finished,
not when items end in Error or Unavailable. -/
theorem only_finished_advances_counter (st : AppState) (url s fp : String)
    (fs : String → Bool) :
    (on_item_status st url s).global_progress_value = st.global_progress_value ∧
    (on_item_status st url s).global_progress_max = st.global_progress_max ∧
    (on_item_finished fs st url fp).global_progress_value =
      min st.global_progress_max (st.global_progress_value + 1) := by
  refine ⟨rfl, rfl, ?_⟩
  unfold on_item_finished set_item_status
  by_cases hfp : fp ≠ "" <;> by_cases h1 : fs fp = true <;>
    by_cases h2 : fs (joinPath st.download_dir (basename fp)) = true <;>
    simp [hfp, h1, h2]

/-- Sample state for claim C7: one running item, empty console and no
recorded files. -/
def stC7 : AppState :=
  { download_dir := "downloads",
    queue_list := [⟨"u", "running", 100, ""⟩],
    queued_urls := ["u"],
    downloaded_files := [],
    console := [],
    global_progress_value := 0,
    global_progress_max := 1,
    running_count := 1 }

/-- C7 counterexample: the claim says that when neither the reported
path nor the output-directory probe resolves, a console warning is
recorded.  On stC7 with a file system where no path exists, the
finished handler appends nothing to downloadedFiles and leaves the
console exactly as it was: no warning line is ever written. -/
theorem unresolved_path_no_warning_cex :
    (on_item_finished (fun _ => false) stC7 "u" "/tmp/video.mp4").downloaded_files = [] ∧
    (on_item_finished (fun _ => false) stC7 "u" "/tmp/video.mp4").console = stC7.console ∧
    status_of (on_item_finished (fun _ => false) stC7 "u" "/tmp/video.mp4").queue_list "u" =
      some "completed" := by decide

/-- C7 (corrected): on a finished event the reported path is appended
to downloadedFiles when it exists, else the output directory joined
with its basename is probed and appended when that exists, else
nothing is appended; in every case the console is untouched (no
warning is recorded), the item filepath field is never set, the item
is marked completed and the aggregate counter advances clamped to the
maximum. -/
theorem finished_reconciliation_behavior (fs : String → Bool) (st : AppState)
    (url fp : String) :
    (on_item_finished fs st url fp).downloaded_files =
      st.downloaded_files ++ reconcile fs st.download_dir fp ∧
    (on_item_finished fs st url fp).console = st.console ∧
    (on_item_finished fs st url fp).queue_list = updStatusList st.queue_list url "completed" ∧
    (on_item_finished fs st url fp).global_progress_value =
      min st.global_progress_max (st.global_progress_value + 1) := by
  unfold on_item_finished set_item_status reconcile
  by_cases hfp : fp ≠ "" <;> by_cases h1 : fs fp = true <;>
    by_cases h2 : fs (joinPath st.download_dir (basename fp)) = true <;>
    simp [hfp, h1, h2]

/-- True when Start ended in the warning message box, launching
nothing. -/
def isRejected : StartOutcome → Bool
  | .rejected _ => true
  | .launched _ => false

/-- C5 (confirmed): with an empty queued-url list, or with the yt-dlp
dependency unavailable, start_downloads returns the state entirely
unchanged and its outcome is the rejection warning: no executor is
launched and no item is mutated. -/
theorem start_rejects_preconditions (st : AppState) (avail : Bool) (n : Nat)
    (h : st.queued_urls = [] ∨ avail = false) :
    (start_downloads st avail n).1 = st ∧
    isRejected (start_downloads st avail n).2 = true := by
  unfold start_downloads
  rcases h with h | h
  · simp [h, isRejected]
  · by_cases he : st.queued_urls.isEmpty <;> simp [he, h, isRejected]

/-- Sample state for claim C5: an empty queue. -/
def stC5 : AppState :=
  { download_dir := "downloads",
    queue_list := [],
    queued_urls := [],
    downloaded_files := [],
    console := [],
    global_progress_value := 0,
    global_progress_max := 0,
    running_count := 0 }

/-- C5 witness: starting with an empty queue is rejected without any
state change. -/
theorem start_rejects_preconditions_witness :
    (start_downloads stC5 true 3).1 = stC5 ∧
    isRejected (start_downloads stC5 true 3).2 = true :=
  start_rejects_preconditions stC5 true 3 (Or.inl (by decide))

theorem countItems_append (a b : List QueueItemData) (url : String) :
    countItems (a ++ b) url = countItems a url + countItems b url := by
  simp [countItems, List.filter_append]

theorem countItems_eq_zero (items : List QueueItemData) (url : String)
    (h : url ∉ items.map (fun it => it.url)) : countItems items url = 0 := by
  induction items with
  | nil => rfl
  | cons it rest ih =>
    simp only [List.map_cons, List.mem_cons, not_or] at h
    have hne : ¬ it.url = url := fun e => h.1 e.symm
    simpa [countItems, List.filter_cons, hne] using ih h.2

/-- C8 (confirmed): on a queue in sync whose live urls do not yet
contain the link, a first submission appends exactly one fresh item
with status queued and progress 0 and appends the url to queued_urls; a
second submission of the same link changes neither the queue widget nor
the url list, so after two submissions exactly one item carries the
link. -/
theorem add_link_idempotent (st : AppState) (link : String)
    (hsync : inSync st) (hnew : link ∉ st.queued_urls) :
    (add_links st [link]).queue_list = st.queue_list ++ [⟨link, "queued", 0, ""⟩] ∧
    (add_links st [link]).queued_urls = st.queued_urls ++ [link] ∧
    (add_links (add_links st [link]) [link]).queue_list = (add_links st [link]).queue_list ∧
    (add_links (add_links st [link]) [link]).queued_urls =
      (add_links st [link]).queued_urls ∧
    countItems (add_links (add_links st [link]) [link]).queue_list link = 1 := by
  have c1 : (add_links st [link]).queue_list = st.queue_list ++ [⟨link, "queued", 0, ""⟩] := by
    simp [add_links, addLinkStep, hnew]
  have c2 : (add_links st [link]).queued_urls = st.queued_urls ++ [link] := by
    simp [add_links, addLinkStep, hnew]
  have hmem : link ∈ (add_links st [link]).queued_urls := by
    rw [c2]; simp
  have c3 : (add_links (add_links st [link]) [link]).queue_list =
      (add_links st [link]).queue_list := by
    generalize hA : add_links st [link] = stA at hmem ⊢
    simp [add_links, addLinkStep, hmem]
  have c4 : (add_links (add_links st [link]) [link]).queued_urls =
      (add_links st [link]).queued_urls := by
    generalize hA : add_links st [link] = stA at hmem ⊢
    simp [add_links, addLinkStep, hmem]
  refine ⟨c1, c2, c3, c4, ?_⟩
  rw [c3, c1, countItems_append]
  have h0 : countItems st.queue_list link = 0 := by
    apply countItems_eq_zero
    rw [← hsync.1]
    exact hnew
  have h1 : countItems [(⟨link, "queued", 0, ""⟩ : QueueItemData)] link = 1 := by
    simp [countItems]
  omega

/-- Sample state for claim C8: an empty in-sync queue. -/
def stC8 : AppState :=
  { download_dir := "downloads",
    queue_list := [],
    queued_urls := [],
    downloaded_files := [],
    console := [],
    global_progress_value := 0,
    global_progress_max := 0,
    running_count := 0 }

/-- C8 witness: submitting the same url twice into an empty queue
leaves exactly one item carrying it. -/
theorem add_link_idempotent_witness :
    countItems (add_links (add_links stC8 ["u"]) ["u"]).queue_list "u" = 1 :=
  (add_link_idempotent stC8 "u" (by decide) (by decide)).2.2.2.2

theorem mem_deleteFiles {l : List String} {fs : String → Bool} {d : String}
    (h : d ∈ (deleteFiles fs l).2) : d ∈ l ∧ fs d = true := by
  induction l generalizing fs with
  | nil => simp [deleteFiles] at h
  | cons f rest ih =>
    by_cases hf : fs f = true
    · simp only [deleteFiles, hf, if_pos] at h
      rcases List.mem_cons.mp h with rfl | hmem
      · exact ⟨List.mem_cons_self _ _, hf⟩
      · obtain ⟨hmem2, hfs1⟩ := ih hmem
        refine ⟨List.mem_cons_of_mem _ hmem2, ?_⟩
        by_cases hdf : d = f
        · rw [hdf] at hfs1; simp at hfs1
        · simpa [hdf] using hfs1
    · simp only [deleteFiles, hf, if_neg] at h
      obtain ⟨hmem2, hfs⟩ := ih h
      exact ⟨List.mem_cons_of_mem _ hmem2, hfs⟩

/-- C9 (confirmed): the reset dialog is a three-way frame: Cancel
changes nothing at all (state, file system and deleted list all
unchanged); No clears the queue widget, the queued-url list, the
console, the downloadedFiles list and the aggregate progress while
deleting nothing from disk; Yes without the checkbox also deletes
nothing; Yes with the checkbox deletes only paths that were recorded
in downloadedFiles and that still exist as files. -/
theorem reset_frame_effects (st : AppState) (cb : Bool) (fs : String → Bool) :
    reset_all st .cancel cb fs = (st, fs, []) ∧
    (reset_all st .no cb fs).1 = clearState st ∧
    (reset_all st .no cb fs).2.1 = fs ∧
    (reset_all st .no cb fs).2.2 = [] ∧
    (reset_all st .yes false fs).1 = clearState st ∧
    (reset_all st .yes false fs).2.2 = [] ∧
    (reset_all st .yes true fs).1 = clearState st ∧
    ((reset_all st .yes true fs).2.2).all
      (fun d => decide (d ∈ st.downloaded_files) && fs d) = true := by
  refine ⟨rfl, rfl, rfl, rfl, rfl, rfl, rfl, ?_⟩
  simp only [reset_all, List.all_eq_true, Bool.and_eq_true, decide_eq_true_eq]
  intro d hd
  exact mem_deleteFiles hd

theorem inSync_addLinkStep (st : AppState) (n : Nat) (link : String) (h : inSync st) :
    inSync (addLinkStep (st, n) link).1 := by
  by_cases hm : link ∈ st.queued_urls
  · simpa [addLinkStep, hm] using h
  · have hstep : (addLinkStep (st, n) link).1 =
        { st with
            queue_list := st.queue_list ++ [⟨link, "queued", 0, ""⟩],
            queued_urls := st.queued_urls ++ [link],
            console := st.console ++ ["[DEBUG] Добавлена полная ссылка: " ++ link] } := by
      simp [addLinkStep, hm]
    rw [hstep]
    refine ⟨?_, ?_⟩
    · show st.queued_urls ++ [link] =
        (st.queue_list ++ [(⟨link, "queued", 0, ""⟩ : QueueItemData)]).map (fun it => it.url)
      simp [h.1]
    · show (st.queued_urls ++ [link]).Nodup
      simp [List.nodup_append, h.2, hm]

theorem inSync_addLinks_foldl (links : List String) (st : AppState) (n : Nat)
    (h : inSync st) : inSync (links.foldl addLinkStep (st, n)).1 := by
  induction links generalizing st n with
  | nil => exact h
  | cons l rest ih =>
    simp only [List.foldl_cons]
    exact ih _ _ (inSync_addLinkStep st n l h)

theorem inSync_add_links (st : AppState) (links : List String) (h : inSync st) :
    inSync (add_links st links) := by
  have h2 := inSync_addLinks_foldl links st 0 h
  exact ⟨h2.1, h2.2⟩

theorem map_removeItemByUrl (items : List QueueItemData) (u : String) :
    (removeItemByUrl items u).map (fun it => it.url) =
      removeFirst (items.map (fun it => it.url)) u := by
  induction items with
  | nil => rfl
  | cons it rest ih =>
    by_cases hu : it.url = u <;> simp [removeItemByUrl, removeFirst, hu, ih]

theorem removeFirst_sublist (l : List String) (u : String) :
    List.Sublist (removeFirst l u) l := by
  induction l with
  | nil => simp [removeFirst]
  | cons x xs ih =>
    by_cases hx : x = u
    · subst hx
      simp only [removeFirst, if_pos]
      exact List.sublist_cons_self x xs
    · simp only [removeFirst, hx, if_neg]
      exact List.Sublist.cons₂ x ih

theorem inSync_removeStep (st : AppState) (u : String) (h : inSync st) :
    inSync { st with
        queued_urls := removeFirst st.queued_urls u,
        queue_list := removeItemByUrl st.queue_list u,
        console := st.console ++ ["Удалено из очереди: " ++ u] } := by
  refine ⟨?_, ?_⟩
  · show removeFirst st.queued_urls u =
      (removeItemByUrl st.queue_list u).map (fun it => it.url)
    rw [map_removeItemByUrl, h.1]
  · exact h.2.sublist (removeFirst_sublist _ _)

theorem inSync_remove_selected (st : AppState) (sel : List String) (h : inSync st) :
    inSync (remove_selected st sel) := by
  induction sel generalizing st with
  | nil => exact h
  | cons u rest ih =>
    simp only [remove_selected, List.foldl_cons]
    exact ih _ (inSync_removeStep st u h)

/-- C10 (confirmed): all three queue-mutating operations preserve the
synchronisation of queued_urls with the queue widget: link adding,
selected-item removal and both clearing answers of the reset dialog
keep the url list equal, in order and without duplicates, to the urls
stored in the widget items. -/
theorem queue_ops_preserve_sync (st : AppState) (links sel : List String) (cb : Bool)
    (fs : String → Bool) (h : inSync st) :
    inSync (add_links st links) ∧
    inSync (remove_selected st sel) ∧
    inSync (reset_all st .no cb fs).1 ∧
    inSync (reset_all st .yes cb fs).1 := by
  refine ⟨inSync_add_links st links h, inSync_remove_selected st sel h, ?_, ?_⟩
  · exact ⟨rfl, List.nodup_nil⟩
  · cases cb <;> exact ⟨rfl, List.nodup_nil⟩

/-- Sample state for claim C10: one queued item, in sync. -/
def stC10 : AppState :=
  { download_dir := "downloads",
    queue_list := [⟨"u", "queued", 0, ""⟩],
    queued_urls := ["u"],
    downloaded_files := [],
    console := [],
    global_progress_value := 0,
    global_progress_max := 0,
    running_count := 0 }

/-- C10 witness: the preservation theorem applied to stC10 with an
added link, a removed selection and both reset answers. -/
theorem queue_ops_preserve_sync_witness :
    inSync (add_links stC10 ["a"]) ∧
    inSync (remove_selected stC10 ["u"]) ∧
    inSync (reset_all stC10 .no true (fun _ => false)).1 ∧
    inSync (reset_all stC10 .yes true (fun _ => false)).1 :=
  queue_ops_preserve_sync stC10 ["a"] ["u"] true (fun _ => false) (by decide)

theorem map_url_updStatusList (items : List QueueItemData) (url s : String) :
    (updStatusList items url s).map (fun it => it.url) =
      items.map (fun it => it.url) := by
  induction items with
  | nil => rfl
  | cons it rest ih =>
    by_cases hu : it.url = url <;> simp [updStatusList, hu, ih]

theorem map_url_updProgressList (items : List QueueItemData) (url : String) (p : Int) :
    (updProgressList items url p).map (fun it => it.url) =
      items.map (fun it => it.url) := by
  induction items with
  | nil => rfl
  | cons it rest ih =>
    by_cases hu : it.url = url <;> simp [updProgressList, hu, ih]

theorem queue_list_on_item_finished (fs : String → Bool) (st : AppState) (url fp : String) :
    (on_item_finished fs st url fp).queue_list =
      updStatusList st.queue_list url "completed" := by
  unfold on_item_finished set_item_status
  by_cases hfp : fp ≠ "" <;> by_cases h1 : fs fp = true <;>
    by_cases h2 : fs (joinPath st.download_dir (basename fp)) = true <;>
    simp [hfp, h1, h2]

theorem map_url_process_sig (fs : String → Bool) (st : AppState) (g : Sig) :
    (process_sig fs st g).queue_list.map (fun it => it.url) =
      st.queue_list.map (fun it => it.url) := by
  cases g with
  | console t => rfl
  | progress u p => exact map_url_updProgressList _ _ _
  | status u s => exact map_url_updStatusList _ _ _
  | finished u fp =>
    show (on_item_finished fs st u fp).queue_list.map (fun it => it.url) = _
    rw [queue_list_on_item_finished]
    exact map_url_updStatusList _ _ _

theorem map_url_apply_sigs (fs : String → Bool) (sigs : List Sig) (st : AppState) :
    (apply_sigs fs st sigs).queue_list.map (fun it => it.url) =
      st.queue_list.map (fun it => it.url) := by
  induction sigs generalizing st with
  | nil => rfl
  | cons g rest ih =>
    exact (ih (process_sig fs st g)).trans (map_url_process_sig fs st g)

theorem status_of_updStatusList (items : List QueueItemData) (url s : String)
    (h : url ∈ items.map (fun it => it.url)) :
    status_of (updStatusList items url s) url = some s := by
  induction items with
  | nil => simp at h
  | cons it rest ih =>
    by_cases hu : it.url = url
    · simp [updStatusList, hu, status_of]
    · simp only [List.map_cons, List.mem_cons] at h
      rcases h with h | h
      · exact absurd h.symm hu
      · simp [updStatusList, hu, status_of, ih h]

theorem mem_updStatusList {items : List QueueItemData} {url s : String}
    {it : QueueItemData} (h : it ∈ updStatusList items url s) :
    it ∈ items ∨ it.url = url := by
  induction items with
  | nil => simp [updStatusList] at h
  | cons a rest ih =>
    by_cases hu : a.url = url
    · rw [updStatusList, if_pos hu] at h
      rcases List.mem_cons.mp h with rfl | hmem
      · right; exact hu
      · left; exact List.mem_cons_of_mem _ hmem
    · rw [updStatusList, if_neg hu] at h
      rcases List.mem_cons.mp h with rfl | hmem
      · left; exact List.mem_cons_self _ _
      · rcases ih hmem with h2 | h2
        · left; exact List.mem_cons_of_mem _ h2
        · right; exact h2

theorem mem_updProgressList {items : List QueueItemData} {url : String} {p : Int}
    {it : QueueItemData} (h : it ∈ updProgressList items url p) :
    it ∈ items ∨ it.url = url := by
  induction items with
  | nil => simp [updProgressList] at h
  | cons a rest ih =>
    by_cases hu : a.url = url
    · rw [updProgressList, if_pos hu] at h
      rcases List.mem_cons.mp h with rfl | hmem
      · right; exact hu
      · left; exact List.mem_cons_of_mem _ hmem
    · rw [updProgressList, if_neg hu] at h
      rcases List.mem_cons.mp h with rfl | hmem
      · left; exact List.mem_cons_self _ _
      · rcases ih hmem with h2 | h2
        · left; exact List.mem_cons_of_mem _ h2
        · right; exact h2

theorem mem_process_sig {fs : String → Bool} {st : AppState} {g : Sig}
    {it : QueueItemData} (h : it ∈ (process_sig fs st g).queue_list) :
    it ∈ st.queue_list ∨ sigUrl g = some it.url := by
  cases g with
  | console t => left; exact h
  | progress u p =>
    rcases mem_updProgressList h with h2 | h2
    · left; exact h2
    · right; rw [h2]; rfl
  | status u s =>
    rcases mem_updStatusList h with h2 | h2
    · left; exact h2
    · right; rw [h2]; rfl
  | finished u fp =>
    have hq := queue_list_on_item_finished fs st u fp
    rw [show (process_sig fs st (Sig.finished u fp)).queue_list =
        (on_item_finished fs st u fp).queue_list from rfl, hq] at h
    rcases mem_updStatusList h with h2 | h2
    · left; exact h2
    · right; rw [h2]; rfl

theorem mem_apply_sigs {fs : String → Bool} {url : String} {sigs : List Sig}
    {st : AppState} {it : QueueItemData}
    (hall : ∀ g ∈ sigs, sigUrl g = none ∨ sigUrl g = some url)
    (h : it ∈ (apply_sigs fs st sigs).queue_list) :
    it ∈ st.queue_list ∨ it.url = url := by
  induction sigs generalizing st with
  | nil => left; exact h
  | cons g rest ih =>
    have hrest : ∀ x ∈ rest, sigUrl x = none ∨ sigUrl x = some url :=
      fun x hx => hall x (List.mem_cons_of_mem _ hx)
    rcases ih hrest h with h2 | h2
    · rcases mem_process_sig h2 with h3 | h3
      · left; exact h3
      · rcases hall g (List.mem_cons_self _ _) with h4 | h4
        · rw [h4] at h3; exact absurd h3 (by simp)
        · right
          rw [h4] at h3
          exact (Option.some.inj h3).symm
    · right; exact h2

theorem sigUrl_hook_sigs {url : String} {e : HookEvent} {g : Sig}
    (h : g ∈ hook_sigs url e) : sigUrl g = none ∨ sigUrl g = some url := by
  cases e with
  | downloading t d eta =>
    simp only [hook_sigs, List.mem_cons, List.not_mem_nil, or_false] at h
    rcases h with rfl | rfl
    · right; rfl
    · left; rfl
  | finished fn =>
    simp only [hook_sigs, List.mem_cons, List.not_mem_nil, or_false] at h
    rcases h with rfl | rfl | rfl
    · right; rfl
    · left; rfl
    · right; rfl

theorem sigUrl_hook_trace {url : String} {evs : List HookEvent} {g : Sig}
    (h : g ∈ hook_trace url evs) : sigUrl g = none ∨ sigUrl g = some url := by
  induction evs with
  | nil => simp [hook_trace] at h
  | cons e rest ih =>
    rw [hook_trace, List.mem_append] at h
    rcases h with h | h
    · exact sigUrl_hook_sigs h
    · exact ih h

theorem worker_run_raises_split (url msg tb : String) (evs : List HookEvent) :
    worker_run url true (.raises msg tb evs) =
      (Sig.console ("Starting download: " ++ url) ::
        (hook_trace url evs ++ [Sig.console (errorLine url msg tb)])) ++
        [Sig.status url "error"] := by
  simp [worker_run]

theorem sigUrl_worker_run_raises {url msg tb : String} {evs : List HookEvent} {g : Sig}
    (h : g ∈ worker_run url true (.raises msg tb evs)) :
    sigUrl g = none ∨ sigUrl g = some url := by
  rw [worker_run_raises_split] at h
  simp only [List.cons_append, List.mem_cons, List.mem_append,
    List.not_mem_nil, or_false] at h
  rcases h with rfl | (h | rfl) | rfl
  · left; rfl
  · exact sigUrl_hook_trace h
  · left; rfl
  · right; rfl

/-- C2 (confirmed): for a fetch call that raises, the worker body emits
the error console line and the terminal status error for its own url;
the terminal error status is the very last signal; being a total
function, worker_run models that the exception never escapes the
runnable.  Consuming the emitted signals leaves the item at status
error (never stuck at running), and every queue item not carrying this
url is left exactly as it was, so no sibling item and no batch-level
state is disturbed. -/
theorem worker_error_contained (url msg tb : String) (evs : List HookEvent)
    (st : AppState) (fs : String → Bool)
    (h : url ∈ st.queue_list.map (fun it => it.url)) :
    Sig.status url "error" ∈ worker_run url true (.raises msg tb evs) ∧
    Sig.console (errorLine url msg tb) ∈ worker_run url true (.raises msg tb evs) ∧
    (worker_run url true (.raises msg tb evs)).getLast? = some (.status url "error") ∧
    status_of (apply_sigs fs st (worker_run url true (.raises msg tb evs))).queue_list url =
      some "error" ∧
    ((apply_sigs fs st (worker_run url true (.raises msg tb evs))).queue_list.all
      (fun it => decide (it ∈ st.queue_list) || it.url == url)) = true := by
  refine ⟨?_, ?_, ?_, ?_, ?_⟩
  · rw [worker_run_raises_split]; simp
  · rw [worker_run_raises_split]; simp
  · rw [worker_run_raises_split]
    exact List.getLast?_concat _
  · rw [worker_run_raises_split]
    have happ : apply_sigs fs st
        ((Sig.console ("Starting download: " ++ url) ::
          (hook_trace url evs ++ [Sig.console (errorLine url msg tb)])) ++
          [Sig.status url "error"]) =
        on_item_status
          (apply_sigs fs st
            (Sig.console ("Starting download: " ++ url) ::
              (hook_trace url evs ++ [Sig.console (errorLine url msg tb)])))
          url "error" := by
      rw [apply_sigs, List.foldl_append]
      rfl
    rw [happ]
    apply status_of_updStatusList
    rw [map_url_apply_sigs]
    exact h
  · simp only [List.all_eq_true, Bool.or_eq_true, decide_eq_true_eq, beq_iff_eq]
    intro it hit
    rcases mem_apply_sigs (fun g hg => sigUrl_worker_run_raises hg) hit with h2 | h2
    · left; exact h2
    · right; exact h2

/-- Sample state for claim C2: one item currently running. -/
def stC2 : AppState :=
  { download_dir := "downloads",
    queue_list := [⟨"u", "running", 40, ""⟩],
    queued_urls := ["u"],
    downloaded_files := [],
    console := [],
    global_progress_value := 0,
    global_progress_max := 1,
    running_count := 1 }

/-- C2 witness: after a raising fetch on stC2, consuming the worker
signals leaves the item at status error. -/
theorem worker_error_contained_witness :
    status_of (apply_sigs (fun _ => false) stC2
        (worker_run "u" true (.raises "boom" "tb" []))).queue_list "u" = some "error" :=
  (worker_error_contained "u" "boom" "tb" [] stC2 (fun _ => false) (by decide)).2.2.2.1

theorem poolStep_preserves (p q : Pool) (step : PoolStep p q) :
    q.maxThreads = p.maxThreads ∧
      (p.active.length ≤ p.maxThreads → q.active.length ≤ q.maxThreads) := by
  cases step with
  | dispatch u rest hp hlt =>
    refine ⟨rfl, fun _ => ?_⟩
    simp only [List.length_append, List.length_singleton]
    omega
  | finish u hu =>
    refine ⟨rfl, fun h => ?_⟩
    have hle : (p.active.erase u).length ≤ p.active.length :=
      (p.active.erase_sublist u).length_le
    simp only
    omega

theorem pool_active_bounded (p q : Pool) (h : PoolSteps p q)
    (hinit : p.active.length ≤ p.maxThreads) :
    q.active.length ≤ q.maxThreads ∧ q.maxThreads = p.maxThreads := by
  induction h with
  | refl => exact ⟨hinit, rfl⟩
  | tail b c hab hbc ih =>
    obtain ⟨h1, h2⟩ := ih
    obtain ⟨h3, h4⟩ := poolStep_preserves b c hbc
    exact ⟨h4 h1, h3.trans h2⟩

theorem submit_all_queue_eval (items : List QueueItemData) (s : AppState) :
    (items.foldl
      (fun s it =>
        set_item_status { s with running_count := s.running_count + 1 } it.url "running")
      s).queue_list =
    items.foldl (fun l it => updStatusList l it.url "running") s.queue_list := by
  induction items generalizing s with
  | nil => rfl
  | cons a rest ih =>
    simp only [List.foldl_cons]
    exact ih _

theorem foldl_updStatus_skip (us : List QueueItemData) (it : QueueItemData)
    (l : List QueueItemData) (h : it.url ∉ us.map (fun x => x.url)) :
    us.foldl (fun l x => updStatusList l x.url "running") (it :: l) =
      it :: us.foldl (fun l x => updStatusList l x.url "running") l := by
  induction us generalizing l with
  | nil => rfl
  | cons u rest ih =>
    simp only [List.map_cons, List.mem_cons, not_or] at h
    have hne : ¬ it.url = u.url := h.1
    simp only [List.foldl_cons, updStatusList, hne, if_neg]
    exact ih _ h.2

theorem foldl_updStatus_all (items : List QueueItemData) :
    ∀ (todo : List QueueItemData),
      todo.map (fun it => it.url) = items.map (fun it => it.url) →
      (items.map (fun it => it.url)).Nodup →
      items.foldl (fun l it => updStatusList l it.url "running") todo =
        todo.map (fun it => { it with status := "running" }) := by
  induction items with
  | nil =>
    intro todo heq _
    cases todo with
    | nil => rfl
    | cons a rest => simp at heq
  | cons a rest ih =>
    intro todo heq hnodup
    cases todo with
    | nil => simp at heq
    | cons b btl =>
      simp only [List.map_cons, List.cons.injEq] at heq
      simp only [List.map_cons, List.nodup_cons] at hnodup
      simp only [List.foldl_cons, updStatusList]
      rw [if_pos heq.1]
      have hskip : ({ b with status := "running" } : QueueItemData).url ∉
          rest.map (fun x => x.url) := by
        show b.url ∉ rest.map (fun x => x.url)
        rw [heq.1]
        exact hnodup.1
      rw [foldl_updStatus_skip rest _ btl hskip]
      rw [ih btl heq.2 hnodup.2]
      simp

/-- Sample state for claim C1: a batch of two queued items about to be
submitted with a worker limit of one. -/
def stC1 : AppState :=
  { download_dir := "downloads",
    queue_list := [⟨"u1", "queued", 0, ""⟩, ⟨"u2", "queued", 0, ""⟩],
    queued_urls := ["u1", "u2"],
    downloaded_files := [],
    console := [],
    global_progress_value := 0,
    global_progress_max := 2,
    running_count := 0 }

/-- C1 counterexample: the claim says the store never shows more than
the worker limit of Running items.  Submitting the two-item batch stC1
with a worker limit of 1 marks both items running in the store at
submission time, so the store shows 2 Running items against a limit of
1. -/
theorem submit_marks_all_items_running_cex :
    ¬ (countWithStatus (submit_all stC1 1).queue_list "running" ≤ 1) := by decide

/-- C1 (corrected): the thread pool itself never has more than
maxThreadCount simultaneously executing runnables (every state
reachable from a freshly submitted pool keeps at most that many
active), but the item store is not capped: _submit_all marks every
submitted item as running immediately, so with unique urls the store
shows the entire batch in Running status regardless of the worker
limit. -/
theorem pool_bounds_active_but_store_marks_all_running
    (n : Nat) (urls : List String) (q : Pool) (st : AppState)
    (hreach : PoolSteps (startPool n urls) q)
    (hnodup : (st.queue_list.map (fun it => it.url)).Nodup) :
    q.active.length ≤ n ∧
    (submit_all st n).queue_list =
      st.queue_list.map (fun it => { it with status := "running" }) := by
  constructor
  · have h0 : (startPool n urls).active.length ≤ (startPool n urls).maxThreads := by
      simp [startPool]
    obtain ⟨h1, h2⟩ := pool_active_bounded _ _ hreach h0
    rw [h2] at h1
    exact h1
  · rw [show (submit_all st n).queue_list =
        st.queue_list.foldl (fun l it => updStatusList l it.url "running") st.queue_list
      from submit_all_queue_eval st.queue_list _]
    exact foldl_updStatus_all st.queue_list st.queue_list rfl hnodup

/-- C1 witness: the corrected theorem applied to the freshly submitted
pool of the stC1 batch with worker limit 1. -/
theorem pool_bounds_active_witness :
    (startPool 1 ["u1", "u2"]).active.length ≤ 1 ∧
    (submit_all stC1 1).queue_list =
      stC1.queue_list.map (fun it => { it with status := "running" }) :=
  pool_bounds_active_but_store_marks_all_running 1 ["u1", "u2"] (startPool 1 ["u1", "u2"])
    stC1 (.refl _) (by decide)

theorem poolStep_finish_of (p q : Pool) (u : String) (hu : u ∈ p.active)
    (hq : q = { p with active := p.active.erase u, done := p.done ++ [u] }) :
    PoolStep p q := by
  subst hq
  exact PoolStep.finish p u hu

theorem poolStep_dispatch_of (p q : Pool) (u : String) (rest : List String)
    (hp : p.pending = u :: rest) (hlt : p.active.length < p.maxThreads)
    (hq : q = { p with pending := rest, active := p.active ++ [u] }) :
    PoolStep p q := by
  subst hq
  exact PoolStep.dispatch p u rest hp hlt

theorem schedStep_of (s t : Sched) (i : Nat) (p q : Pool)
    (hp : s.pools[i]? = some p) (hstep : PoolStep p q)
    (ht : t = { s with pools := s.pools.set i q }) : SchedStep s t := by
  subst ht
  exact SchedStep.pool s i p q hp hstep

/-- The pool state when Stop is pressed in the C3 scenario: a batch of
two urls with worker limit 1, u1 already executing, u2 queued in the
pool but not yet started. -/
def poolC3 : Pool :=
  { maxThreads := 1, pending := ["u2"], active := ["u1"], done := [] }

/-- The process state at the moment of Stop in the C3 scenario: the
single global pool holds the batch. -/
def schedC3 : Sched := { pools := [poolC3], cur := 0 }

/-- Intermediate state of the C3 scenario: after Stop, u1 finished
naturally inside the old pool. -/
def midC3 : Sched :=
  { pools := [{ maxThreads := 1, pending := ["u2"], active := [], done := ["u1"] },
              { maxThreads := 1, pending := [], active := [], done := [] }],
    cur := 1 }

/-- Final state of the C3 scenario: the old pool has started u2 even
though Stop had already happened. -/
def finC3 : Sched :=
  { pools := [{ maxThreads := 1, pending := [], active := ["u2"], done := ["u1"] },
              { maxThreads := 1, pending := [], active := [], done := [] }],
    cur := 1 }

/-- C3 (code bug): the claim, and the comment in stop_downloads itself,
say that after Stop no queued-but-unstarted item ever starts running.
But stop_downloads only rebinds self.threadpool to a fresh pool; the
old pool keeps its queued runnables and keeps scheduling them.  In the
schedC3 scenario (two urls, limit 1, Stop pressed while u1 downloads),
the not-yet-started u2 still reaches the active set of the old pool
after Stop. -/
theorem stop_does_not_prevent_queued_start :
    ∃ s2 : Sched, SchedSteps (stop_downloads schedC3 true 1) s2 ∧
      ∃ p : Pool, s2.pools[0]? = some p ∧ "u2" ∈ p.active := by
  have h1 : SchedStep (stop_downloads schedC3 true 1) midC3 :=
    schedStep_of _ _ 0 poolC3
      { maxThreads := 1, pending := ["u2"], active := [], done := ["u1"] }
      (by decide)
      (poolStep_finish_of _ _ "u1" (by decide) (by decide))
      (by decide)
  have h2 : SchedStep midC3 finC3 :=
    schedStep_of _ _ 0
      { maxThreads := 1, pending := ["u2"], active := [], done := ["u1"] }
      { maxThreads := 1, pending := [], active := ["u2"], done := ["u1"] }
      (by decide)
      (poolStep_dispatch_of _ _ "u2" [] (by decide) (by decide) (by decide))
      (by decide)
  exact ⟨finC3, .tail _ _ _ (.tail _ _ _ (.refl _) h1) h2,
    { maxThreads := 1, pending := [], active := ["u2"], done := ["u1"] },
    by decide, by decide⟩

end RutubeSaver
